import Mathlib

/-!
Shallow embedding of `src/omega.js` (omega.js v2015-05-07), a small DOM
utility library, together with theorems settling the specification claims.

Modelling conventions:
* DOM nodes are identified by natural-number ids; the platform primitives the
  library delegates to (`Element.matches`, HTML parsing, `JSON.stringify`)
  are abstracted as function parameters of the embedded operations.
* JavaScript truthiness is made explicit where the source branches on it
  (`!node`, `!selector`, `if (reqBodyObject)`, `!content`).
* Fallible code (the two `throw new Error` sites of `_parent`) is embedded
  with `Except`.
* Mutation is embedded by explicit state passing: the document forest for
  `_frag`, the global `window.Ω` binding for `_noConflict`, and a small
  transition system for the DOM-ready queue.
-/

namespace OmegaJs

/-! ## The request helper `_xhr` (src/omega.js lines 372-397)

The body argument `reqBodyObject` is documented to be an object, a string,
`undefined` or `null`.  `JSON.stringify` is abstracted as a parameter
`stringify : α → String`.  The embedded result records what the call did to
the request object: the method/url passed to `open`, the headers set by
`setRequestHeader`, and the payload passed to `send` (`none` when `send()`
was called with no argument). -/

/-- The possible values of the `reqBodyObject` argument of `_xhr`. -/
inductive ReqBody (α : Type) where
  | undef : ReqBody α
  | null : ReqBody α
  | str (s : String) : ReqBody α
  | obj (o : α) : ReqBody α
deriving DecidableEq, Repr

/-- JavaScript truthiness of the `reqBodyObject` argument, as tested by
`if(reqBodyObject)`: `undefined`, `null` and the empty string are falsy;
every other string and every object is truthy. -/
def bodyTruthy {α : Type} : ReqBody α → Bool
  | .undef => false
  | .null => false
  | .str s => !(s == "")
  | .obj _ => true

/-- The observable configuration of the `XMLHttpRequest` object returned by
`_xhr`: what was passed to `open`, `setRequestHeader` and `send`. -/
structure Req where
  method : String
  url : String
  headers : List (String × String)
  sentBody : Option String
deriving DecidableEq, Repr

/-- Embedding of `_xhr` (the body-handling part; the `onload`/`onerror`
callback wiring carries no data relevant to the claims).  Mirrors the source:
`if(reqBodyObject) { setRequestHeader("Content-Type","application/json");
if(_isString(reqBodyObject)) send(reqBodyObject) else
send(JSON.stringify(reqBodyObject)) } else { send() }`.  The last two match
arms are unreachable because `undef` and `null` are falsy. -/
def xhrModel {α : Type} (stringify : α → String) (method url : String)
    (reqBodyObject : ReqBody α) : Req :=
  if bodyTruthy reqBodyObject then
    match reqBodyObject with
    | .str s => ⟨method, url, [("Content-Type", "application/json")], some s⟩
    | .obj o => ⟨method, url, [("Content-Type", "application/json")], some (stringify o)⟩
    | .undef => ⟨method, url, [("Content-Type", "application/json")], none⟩
    | .null => ⟨method, url, [("Content-Type", "application/json")], none⟩
  else
    ⟨method, url, [], none⟩

/-! ## The restore-previous-global-binding operation `_noConflict`
(src/omega.js lines 22 and 423-427)

The state records the captured `_oldΩ`, the current `window.Ω` binding and
the library instance the IIFE constructed.  `Option V` models a global that
may be `undefined` before the library loads. -/

/-- Global-binding state after the library's IIFE has run: `oldOmega` is the
value `window.Ω` held when line 22 executed, `binding` is the current value
of `window.Ω`, and `inst` is the library's own namespace object. -/
structure GlobalState (V : Type) where
  oldOmega : Option V
  binding : Option V
  inst : V
deriving DecidableEq, Repr

/-- Embedding of the load-time effect of the IIFE: line 22 captures the prior
`window.Ω` into `_oldΩ`, and line 461 rebinds `window.Ω` to the library
instance. -/
def loadLibrary {V : Type} (priorBinding : Option V) (inst : V) : GlobalState V :=
  ⟨priorBinding, some inst, inst⟩

/-- A third party rebinding `window.Ω` after load (not part of the library;
used to state that `_noConflict` restores the load-time capture even then). -/
def setGlobal {V : Type} (s : GlobalState V) (v : Option V) : GlobalState V :=
  { s with binding := v }

/-- Embedding of `_noConflict`: reads the current `window.Ω` into a local,
sets `window.Ω` back to `_oldΩ`, and returns the local.  The result pairs the
new state with the returned value. -/
def noConflict {V : Type} (s : GlobalState V) : GlobalState V × Option V :=
  ({ s with binding := s.oldOmega }, s.binding)

/-! ## The defaults-merging helper `_addDefaults` (src/omega.js lines 343-354)

A JavaScript object is embedded as an `id` (object identity), its own
enumerable property table in insertion order, and its prototype chain (a list
of property tables, nearest prototype first).  The `in` operator consults own
properties and the whole prototype chain; `Object.keys` lists the own table's
keys in order. -/

/-- Embedding of a JavaScript object with values of type `V`. -/
structure JsObj (V : Type) where
  id : Nat
  own : List (String × V)
  protos : List (List (String × V))
deriving DecidableEq, Repr

/-- Whether `key in obj` holds: the key is an own property or a property of
some object on the prototype chain. -/
def keyIn {V : Type} (k : String) (o : JsObj V) : Bool :=
  (o.own.lookup k).isSome || o.protos.any (fun t => (t.lookup k).isSome)

/-- Property read `obj[key]`: own properties shadow the prototype chain, and
earlier prototypes shadow later ones. -/
def propGet {V : Type} (k : String) (o : JsObj V) : Option V :=
  match o.own.lookup k with
  | some v => some v
  | none =>
    match o.protos.find? (fun t => (t.lookup k).isSome) with
    | some t => t.lookup k
    | none => none

/-- Adding an own property to an object that does not yet have it as an own
property: JavaScript appends it at the end of the insertion order. -/
def addOwn {V : Type} (o : JsObj V) (k : String) (v : V) : JsObj V :=
  { o with own := o.own ++ [(k, v)] }

/-- Embedding of `_addDefaults`.  `obj = obj || {}` is modelled by the
`Option` argument (`none` for a falsy target, replaced by a fresh empty
object with id 0 and no prototypes).  `Object.keys(defaults).forEach` walks
the own table of `defaults` in order and sets `obj[key] = defaults[key]`
exactly when `!(key in obj)` at that point. -/
def addDefaults {V : Type} (obj : Option (JsObj V)) (defaults : JsObj V) : JsObj V :=
  let o := obj.getD ⟨0, [], []⟩
  defaults.own.foldl (fun acc kv => if keyIn kv.1 acc then acc else addOwn acc kv.1 kv.2) o

/-! ## Ancestor search `_parent` (src/omega.js lines 115-130)

A browsing context is embedded as a `Dom`: the ids of the four disallowed
root-level objects, and the platform predicate `Element.matches` abstracted
over node ids (total in the model).  A node argument is embedded as its id
together with the chain of ids reached by following `parentNode` upward
(`parentNode === null` at the end of the list).  A missing node argument is
`none` (real DOM nodes are always truthy); a selector argument is falsy when
missing or the empty string. -/

/-- A browsing context: ids of `window`, `document`, the `html` element and
the `body` element, plus the `matches` primitive over node ids. -/
structure Dom where
  winId : Nat
  docId : Nat
  htmlId : Nat
  bodyId : Nat
  elMatches : Nat → String → Bool

/-- A node argument: its own id and the ids of its ancestors, nearest
first, ending where `parentNode` becomes null. -/
structure NodeRef where
  self : Nat
  ancestors : List Nat
deriving DecidableEq, Repr

/-- JavaScript falsiness of the selector argument: absent or the empty
string. -/
def selectorFalsy : Option String → Bool
  | none => true
  | some s => s == ""

/-- The while loop of `_parent`: `while(!!p && p !== _body) { if
(p.matches(selector)) return p; p = p.parentNode; } return undefined;`.
The list holds the remaining upward chain starting at the current `p`; the
empty list is `p === null`. -/
def scanUp (d : Dom) (selector : String) : List Nat → Option Nat
  | [] => none
  | p :: rest =>
    if p == d.bodyId then none
    else if d.elMatches p selector then some p
    else scanUp d selector rest

/-- The condition of the guard at line 119: the starting node is one of the
four disallowed root-level nodes, `node === _win || node === _doc || node
=== _html || node === _body`. -/
def isRootNode (d : Dom) (n : NodeRef) : Bool :=
  n.self == d.winId || n.self == d.docId || n.self == d.htmlId || n.self == d.bodyId

/-- Embedding of `_parent`: the two argument guards throw, then the scan
starts at the node itself when `includeSelf` is set and at its parent
otherwise. -/
def parentSearch (d : Dom) (node : Option NodeRef) (selector : Option String)
    (includeSelf : Bool) : Except String (Option Nat) :=
  match node with
  | none => .error "node and selector must be given"
  | some n =>
    if selectorFalsy selector then .error "node and selector must be given"
    else if isRootNode d n then .error "invalid choice of node"
    else
      .ok (scanUp d (selector.getD "") (if includeSelf then n.self :: n.ancestors else n.ancestors))

/-! ## Fragment construction `_frag` / `_parseOne`
(src/omega.js lines 197-223 and 235-243)

DOM nodes are embedded as trees carrying an id (object identity; unique in a
well-formed document).  A template element carries its `content` fragment's
child list separately from ordinary children.  The document is a forest of
root trees; an element currently in the document is a subtree of that
forest.  `appendChild` of a node that is in the document removes it from its
prior location (DOM adoption); `cloneNode(true)` returns a detached deep
copy, so appending a fresh clone removes nothing.  HTML parsing
(`tmp.innerHTML = content`) is abstracted as `parse : String → List DNode`. -/

/-- A DOM node: an element with children, a template element with its
`content` fragment's children, or a text node. -/
inductive DNode where
  | elem (id : Nat) (tag : String) (children : List DNode) : DNode
  | template (id : Nat) (content : List DNode) : DNode
  | text (id : Nat) (s : String) : DNode

/-- The id of a node. -/
def DNode.nodeId : DNode → Nat
  | .elem i _ _ => i
  | .template i _ => i
  | .text i _ => i

mutual

/-- Whether a node with the given id occurs in the tree (template content
included). -/
def containsNode (i : Nat) : DNode → Bool
  | .elem j _ cs => j == i || containsForest i cs
  | .template j cs => j == i || containsForest i cs
  | .text j _ => j == i

/-- Whether a node with the given id occurs in the forest. -/
def containsForest (i : Nat) : List DNode → Bool
  | [] => false
  | c :: cs => containsNode i c || containsForest i cs

end

mutual

/-- Removing every node with the given id from the tree's descendants. -/
def detachNode (i : Nat) : DNode → DNode
  | .elem j t cs => .elem j t (detachForest i cs)
  | .template j cs => .template j (detachForest i cs)
  | .text j s => .text j s

/-- Removing every node with the given id from the forest. -/
def detachForest (i : Nat) : List DNode → List DNode
  | [] => []
  | c :: cs =>
    if c.nodeId == i then detachForest i cs
    else detachNode i c :: detachForest i cs

end

mutual

/-- Embedding of `cloneNode(true)`: a deep copy of the tree.  On pure tree
values the copy is the value itself; the clone's significance is that it is
detached, which the `_frag` embedding accounts for by not removing anything
from the document when appending it. -/
def cloneNode : DNode → DNode
  | .elem j t cs => .elem j t (cloneForest cs)
  | .template j cs => .template j (cloneForest cs)
  | .text j s => .text j s

/-- Deep copy of a forest, as `cloneNode(true)` copies child lists. -/
def cloneForest : List DNode → List DNode
  | [] => []
  | c :: cs => cloneNode c :: cloneForest cs

end

/-- The `while((el = tmp.firstChild)) { frag.appendChild(el); }` loop of the
string branch: repeatedly moves the first remaining parsed node to the end
of the fragment's child list. -/
def moveChildren : List DNode → List DNode → List DNode
  | [], acc => acc
  | c :: cs, acc => moveChildren cs (acc ++ [c])

/-- The `content` argument of `_frag`: absent (`undefined`/`null`), a
string, a template element, or a plain element.  For the two element cases
the argument carries the node's tree value; whether that node is currently
in the document is expressed by the theorems' state component. -/
inductive FragContent where
  | undef : FragContent
  | str (s : String) : FragContent
  | templateEl (id : Nat) (content : List DNode) : FragContent
  | elemEl (n : DNode) : FragContent

/-- JavaScript falsiness of the `content` argument tested by `!content`:
absent content and the empty string are falsy. -/
def contentFalsy : FragContent → Bool
  | .undef => true
  | .str s => s == ""
  | _ => false

/-- Embedding of `_frag`.  The pair is (document forest after the call,
child list of the returned fragment).
String branch: parse into a detached `div` and move its children over.
Template branch: `frag.appendChild(content.content.cloneNode(true))` clones
the template's content fragment and appending that fragment moves its child
list into `frag`; the clone is detached, so the document is untouched.
Element branch with `cloneEls`: appends a detached deep clone, document
untouched.  Element branch without `cloneEls`: `frag.appendChild(content)`
adopts the element, removing it from its prior location in the document. -/
def frag (parse : String → List DNode) (st : List DNode) (content : FragContent)
    (cloneEls : Bool) : List DNode × List DNode :=
  if contentFalsy content then (st, [])
  else
    match content with
    | .undef => (st, [])
    | .str s => (st, moveChildren (parse s) [])
    | .templateEl _ tcontent => (st, cloneForest tcontent)
    | .elemEl n =>
      if cloneEls then (st, [cloneNode n])
      else (detachForest n.nodeId st, [n])

/-- The result of `_parseOne`: either the single top-level node, or the
whole fragment (its child list). -/
inductive ParseOneResult where
  | single (n : DNode) : ParseOneResult
  | fragment (children : List DNode) : ParseOneResult

/-- Embedding of `_parseOne`: builds the fragment via `_frag` and returns
`frag.firstChild` when the fragment has exactly one child node, the
fragment itself otherwise. -/
def parseOne (parse : String → List DNode) (st : List DNode) (content : FragContent)
    (cloneEls : Bool) : List DNode × ParseOneResult :=
  let r := frag parse st content cloneEls
  match r.2 with
  | [c] => (r.1, .single c)
  | cs => (r.1, .fragment cs)

/-! ## DOM-ready signalling `_onDomReady` / `_onDomReadyHandler`
(src/omega.js lines 31-62)

The module state is `_domIsReady`, `_domReadyCallbacks` (an array, set to
`undefined` by the handler), the `DOMContentLoaded` listener registration,
and the macrotask queue created by `setTimeout(callback, 0)`.  Callbacks are
identified by natural numbers.  The environment drives the system through
three kinds of step: a call to `onDomReady`, the dispatch of
`DOMContentLoaded` (which runs `_onDomReadyHandler` only while the listener
is registered), and the event loop running the earliest pending timeout.
The observable `invoked` trace records callback invocations in order;
`onDomReady` itself never appends to it, which is the asynchrony
guarantee. -/

/-- Callback identifier. -/
abbrev Cb := Nat

/-- Module and event-loop state for the readiness component. -/
structure ReadyState where
  domIsReady : Bool
  callbacks : Option (List Cb)
  listening : Bool
  timeouts : List Cb
  invoked : List Cb
deriving DecidableEq, Repr

/-- State right after the IIFE runs on a document that is not yet ready
(`readyState` is `loading`): flag false, empty callback array, listener
registered. -/
def initLoading : ReadyState :=
  ⟨false, some [], true, [], []⟩

/-- Steps the environment can take. -/
inductive RStep where
  | register (cb : Cb) : RStep
  | fire : RStep
  | runTimeout : RStep
deriving DecidableEq, Repr

/-- One step of the system.
`register cb` is a call to `_onDomReady(cb)`: before readiness it pushes
onto `_domReadyCallbacks`; after, it schedules `setTimeout(cb, 0)`.
`fire` is the `DOMContentLoaded` dispatch: while the listener is registered
it runs `_onDomReadyHandler`, which sets the flag, removes the listener,
invokes the queued callbacks in array order, and sets the array to
`undefined`; with no listener the dispatch does nothing.
`runTimeout` lets the event loop run the earliest pending timeout. -/
def rstep (s : ReadyState) : RStep → ReadyState
  | .register cb =>
    if s.domIsReady then { s with timeouts := s.timeouts ++ [cb] }
    else { s with callbacks := s.callbacks.map (fun l => l ++ [cb]) }
  | .fire =>
    if s.listening then
      { s with domIsReady := true, listening := false,
               invoked := s.invoked ++ s.callbacks.getD [], callbacks := none }
    else s
  | .runTimeout =>
    match s.timeouts with
    | [] => s
    | cb :: rest => { s with timeouts := rest, invoked := s.invoked ++ [cb] }

/-- Running a list of steps from a state. -/
def runSteps (s : ReadyState) (steps : List RStep) : ReadyState :=
  steps.foldl rstep s

/-- The callbacks a trace registers, in registration order. -/
def regs (steps : List RStep) : List Cb :=
  steps.filterMap (fun st => match st with | .register cb => some cb | _ => none)

/-- The not-yet-invoked callbacks a state still holds: the queued array plus
the pending timeouts. -/
def pendingCbs (s : ReadyState) : List Cb :=
  s.callbacks.getD [] ++ s.timeouts

/-- A state with nothing left to run: the callback array is gone or empty
and no timeout is pending. -/
def drained (s : ReadyState) : Prop :=
  pendingCbs s = []

instance (s : ReadyState) : Decidable (drained s) := by
  unfold drained; infer_instance

/-- Structural invariant: while the flag is down, the callback array still
exists (it only becomes `undefined` in the handler, which also raises the
flag). -/
def readyWF (s : ReadyState) : Prop :=
  s.domIsReady = false → s.callbacks.isSome

/-! ## Helper lemmas -/

theorem foldl_setGlobal_oldOmega {V : Type} (rebinds : List (Option V)) (s : GlobalState V) :
    (rebinds.foldl setGlobal s).oldOmega = s.oldOmega := by
  induction rebinds generalizing s with
  | nil => rfl
  | cons r rest ih => simpa [setGlobal] using ih (setGlobal s r)

theorem scanUp_eq_find (d : Dom) (sel : String) (l : List Nat) :
    scanUp d sel l =
      (l.takeWhile (fun p => !(p == d.bodyId))).find? (fun p => d.elMatches p sel) := by
  induction l with
  | nil => rfl
  | cons p rest ih =>
    cases hb : (p == d.bodyId) with
    | true => simp [scanUp, List.takeWhile_cons, hb]
    | false =>
      cases hm : d.elMatches p sel with
      | true => simp [scanUp, List.takeWhile_cons, List.find?_cons, hb, hm]
      | false => simp [scanUp, List.takeWhile_cons, List.find?_cons, hb, hm, ih]

theorem scanUp_ne_body (d : Dom) (sel : String) (l : List Nat) (p : Nat)
    (h : scanUp d sel l = some p) : p ≠ d.bodyId := by
  induction l with
  | nil => simp [scanUp] at h
  | cons q rest ih =>
    simp only [scanUp] at h
    by_cases hb : (q == d.bodyId) = true
    · simp [hb] at h
    · rw [if_neg hb] at h
      by_cases hm : d.elMatches q sel = true
      · rw [if_pos hm] at h
        cases h
        simpa using hb
      · rw [if_neg hm] at h
        exact ih h

theorem moveChildren_eq (l acc : List DNode) : moveChildren l acc = acc ++ l := by
  induction l generalizing acc with
  | nil => simp [moveChildren]
  | cons c cs ih => rw [moveChildren, ih]; simp

mutual

theorem cloneNode_eq : ∀ n : DNode, cloneNode n = n
  | .elem i t cs => by rw [cloneNode, cloneForest_eq cs]
  | .template i cs => by rw [cloneNode, cloneForest_eq cs]
  | .text i s => by rw [cloneNode]

theorem cloneForest_eq : ∀ l : List DNode, cloneForest l = l
  | [] => by rw [cloneForest]
  | c :: cs => by rw [cloneForest, cloneNode_eq c, cloneForest_eq cs]

end

mutual

theorem containsNode_detachNode (i : Nat) :
    ∀ n : DNode, containsNode i (detachNode i n) = (DNode.nodeId n == i)
  | .elem j t cs => by
    simp [detachNode, containsNode, DNode.nodeId, containsForest_detachForest i cs]
  | .template j cs => by
    simp [detachNode, containsNode, DNode.nodeId, containsForest_detachForest i cs]
  | .text j s => by simp [detachNode, containsNode, DNode.nodeId]

theorem containsForest_detachForest (i : Nat) :
    ∀ l : List DNode, containsForest i (detachForest i l) = false
  | [] => by rw [detachForest, containsForest]
  | c :: cs => by
    cases h : (DNode.nodeId c == i) with
    | true => simp [detachForest, h, containsForest_detachForest i cs]
    | false =>
      simp [detachForest, h, containsForest, containsNode_detachNode i c,
        containsForest_detachForest i cs]

end

theorem lookup_append {V : Type} (k : String) (l l' : List (String × V)) :
    (l ++ l').lookup k = ((l.lookup k).or (l'.lookup k)) := by
  induction l with
  | nil => simp
  | cons kv rest ih =>
    obtain ⟨a, b⟩ := kv
    simp only [List.cons_append, List.lookup]
    cases h : (k == a) with
    | true => simp
    | false => simpa using ih

theorem lookup_none_of_not_mem {V : Type} (k : String) :
    ∀ l : List (String × V), k ∉ l.map Prod.fst → l.lookup k = none := by
  intro l
  induction l with
  | nil => intro _; rfl
  | cons kv rest ih =>
    intro h
    obtain ⟨a, b⟩ := kv
    simp only [List.map_cons, List.mem_cons, not_or] at h
    simp only [List.lookup]
    rw [show (k == a) = false from beq_eq_false_iff_ne.mpr h.1]
    exact ih h.2

theorem keyIn_own_append {V : Type} (k : String) (i : Nat) (ow pr : List (String × V))
    (ps : List (List (String × V))) :
    keyIn k ⟨i, ow ++ pr, ps⟩ = (keyIn k ⟨i, ow, ps⟩ || (pr.lookup k).isSome) := by
  simp only [keyIn, lookup_append, Option.isSome_or]
  cases (ow.lookup k).isSome <;> cases (pr.lookup k).isSome <;> simp

theorem addDefaults_foldl {V : Type} (base : JsObj V) (l : List (String × V)) :
    ∀ pref : List (String × V),
    ((pref ++ l).map Prod.fst).Nodup →
    List.foldl (fun acc kv => if keyIn kv.1 acc then acc else addOwn acc kv.1 kv.2)
        ⟨base.id, base.own ++ pref, base.protos⟩ l
      = ⟨base.id, base.own ++ pref ++ List.filter (fun kv => !(keyIn kv.1 base)) l,
          base.protos⟩ := by
  induction l with
  | nil => intro pref _; simp
  | cons kv l ih =>
    intro pref hnd
    have hdisj : List.Disjoint (pref.map Prod.fst) ((kv :: l).map Prod.fst) := by
      have := List.nodup_append.mp (by simpa using hnd)
      exact this.2.2
    have hpref : pref.lookup kv.1 = none := by
      apply lookup_none_of_not_mem
      intro hmem
      exact hdisj hmem (by simp)
    have hkey : keyIn kv.1 ⟨base.id, base.own ++ pref, base.protos⟩ = keyIn kv.1 base := by
      rw [keyIn_own_append]
      simp [hpref]
    simp only [List.foldl_cons]
    cases hk : keyIn kv.1 base with
    | true =>
      rw [if_pos (by rw [hkey, hk])]
      have hnd' : ((pref ++ l).map Prod.fst).Nodup := by
        refine List.Nodup.sublist (List.Sublist.map Prod.fst ?_) hnd
        exact List.Sublist.append_left (List.sublist_cons_self kv l) pref
      rw [ih pref hnd']
      simp [List.filter_cons, hk]
    | false =>
      rw [if_neg (by rw [hkey, hk]; simp)]
      have hshape : addOwn ⟨base.id, base.own ++ pref, base.protos⟩ kv.1 kv.2
          = ⟨base.id, base.own ++ (pref ++ [kv]), base.protos⟩ := by
        simp [addOwn]
      rw [hshape]
      have hnd' : (((pref ++ [kv]) ++ l).map Prod.fst).Nodup := by
        simpa [List.append_assoc] using hnd
      rw [ih (pref ++ [kv]) hnd']
      simp [List.filter_cons, hk, List.append_assoc]

theorem lookup_filter_keyIn_none {V : Type} (obj : JsObj V) (k : String)
    (hk : keyIn k obj = true) :
    ∀ l : List (String × V),
    (List.filter (fun kv => !(keyIn kv.1 obj)) l).lookup k = none := by
  intro l
  induction l with
  | nil => rfl
  | cons kv rest ih =>
    rw [List.filter_cons]
    cases hkv : keyIn kv.1 obj with
    | true => simpa [hkv] using ih
    | false =>
      simp only [hkv, Bool.not_false, if_pos]
      simp only [List.lookup]
      have hne : (k == kv.1) = false := by
        apply beq_eq_false_iff_ne.mpr
        intro he
        rw [← he] at hkv
        rw [hk] at hkv
        exact Bool.true_eq_false.mp hkv
      rw [hne]
      exact ih

theorem propGet_append_right_none {V : Type} (k : String) (i : Nat)
    (ow add : List (String × V)) (ps : List (List (String × V)))
    (h : add.lookup k = none) :
    propGet k ⟨i, ow ++ add, ps⟩ = propGet k ⟨i, ow, ps⟩ := by
  simp only [propGet, lookup_append, h, Option.or_none]

theorem readyWF_rstep (s : ReadyState) (h : readyWF s) (e : RStep) :
    readyWF (rstep s e) := by
  cases e with
  | register cb =>
    cases hr : s.domIsReady with
    | true => intro hfalse; simp_all [rstep]
    | false =>
      simp only [rstep, hr, Bool.false_eq_true, if_false]
      intro _
      simpa using h hr
  | fire =>
    cases hl : s.listening with
    | true => intro hfalse; simp_all [rstep]
    | false => simpa [rstep, hl] using h
  | runTimeout =>
    cases ht : s.timeouts with
    | nil => simpa [rstep, ht] using h
    | cons c rest => intro hr; simp only [rstep, ht] at hr ⊢; exact h hr

theorem rstep_count (s : ReadyState) (hwf : readyWF s) (e : RStep) (cb : Cb) :
    (rstep s e).invoked.count cb + (pendingCbs (rstep s e)).count cb
      = s.invoked.count cb + (pendingCbs s).count cb + (regs [e]).count cb := by
  cases e with
  | register c =>
    cases hr : s.domIsReady with
    | true =>
      simp [rstep, hr, pendingCbs, regs, List.count_append]
      omega
    | false =>
      obtain ⟨lq, hq⟩ := Option.isSome_iff_exists.mp (hwf hr)
      simp [rstep, hr, hq, pendingCbs, regs, List.count_append, List.count_cons]
      omega
  | fire =>
    cases hl : s.listening with
    | true =>
      simp [rstep, hl, pendingCbs, regs, List.count_append]
      omega
    | false => simp [rstep, hl, regs]
  | runTimeout =>
    cases ht : s.timeouts with
    | nil => simp [rstep, ht, regs]
    | cons c rest =>
      simp [rstep, ht, pendingCbs, regs, List.count_append, List.count_cons]
      omega

theorem runSteps_count (steps : List RStep) :
    ∀ (s : ReadyState) (cb : Cb), readyWF s →
    (runSteps s steps).invoked.count cb + (pendingCbs (runSteps s steps)).count cb
      = s.invoked.count cb + (pendingCbs s).count cb + (regs steps).count cb := by
  induction steps with
  | nil => intro s cb _; simp [runSteps, regs]
  | cons e rest ih =>
    intro s cb hwf
    have h1 : runSteps s (e :: rest) = runSteps (rstep s e) rest := rfl
    have h2 := ih (rstep s e) cb (readyWF_rstep s hwf e)
    have h3 := rstep_count s hwf e cb
    have h4 : (regs (e :: rest)).count cb = (regs [e]).count cb + (regs rest).count cb := by
      cases e with
      | register c => simp [regs, List.count_cons]; omega
      | fire => simp [regs]
      | runTimeout => simp [regs]
    rw [h1, h2]
    omega

theorem runSteps_noFire (pre : List RStep) :
    ∀ l : List Cb, (∀ e ∈ pre, e ≠ RStep.fire) →
    runSteps ⟨false, some l, true, [], []⟩ pre
      = ⟨false, some (l ++ regs pre), true, [], []⟩ := by
  induction pre with
  | nil => intro l _; simp [runSteps, regs]
  | cons e rest ih =>
    intro l hne
    cases e with
    | register cb =>
      have h1 : runSteps ⟨false, some l, true, [], []⟩ (RStep.register cb :: rest)
          = runSteps ⟨false, some (l ++ [cb]), true, [], []⟩ rest := rfl
      rw [h1, ih (l ++ [cb]) (fun e he => hne e (List.mem_cons_of_mem _ he))]
      simp [regs]
    | fire => exact absurd rfl (hne RStep.fire (List.mem_cons_self _ _))
    | runTimeout =>
      have h1 : runSteps ⟨false, some l, true, [], []⟩ (RStep.runTimeout :: rest)
          = runSteps ⟨false, some l, true, [], []⟩ rest := rfl
      rw [h1, ih l (fun e he => hne e (List.mem_cons_of_mem _ he))]
      simp [regs]

/-! ## Claim theorems -/

/-- C8: `noConflict` sets the global `Ω` binding back to exactly the value it
held before the library was loaded (even after arbitrary later rebindings of
the global), and a load-then-noConflict round trip leaves the global binding
as it originally was while returning the library's own instance, which was
bound to the global name at the time of the call. -/
theorem claim_C8 :
    (∀ (V : Type) (w : Option V) (inst : V) (rebinds : List (Option V)),
      (noConflict (rebinds.foldl setGlobal (loadLibrary w inst))).1.binding = w)
    ∧ (∀ (V : Type) (w : Option V) (inst : V),
      noConflict (loadLibrary w inst) = (⟨w, w, inst⟩, some inst)) := by
  constructor
  · intro V w inst rebinds
    simp [noConflict, foldl_setGlobal_oldOmega, loadLibrary]
  · intro V w inst
    rfl

/-- C5, counterexample to the claim as stated: with the empty string as the
body argument — a string — `_xhr` does not send that string verbatim: it
calls `send()` with no payload at all (and sets no content-type header). -/
theorem claim_C5_counterexample :
    (xhrModel (fun n : Nat => toString n) "POST" "/api" (ReqBody.str "")).sentBody = none
    ∧ ¬ (xhrModel (fun n : Nat => toString n) "POST" "/api" (ReqBody.str "")).sentBody
        = some "" := by
  constructor
  · rfl
  · decide

/-- C5 (amended): given a plain (non-string) object body, `_xhr` sends the
JSON-serialized string of that object with a JSON content-type header; given
a **non-empty** string body it sends that string verbatim; given no body
(`undefined` or `null`) it sends no body; the empty string body is treated
like an absent body; and it returns the in-flight request object configured
with the given method and url. -/
theorem claim_C5 :
    ∀ (α : Type) (stringify : α → String) (method url : String),
    (∀ o : α, xhrModel stringify method url (.obj o) =
      ⟨method, url, [("Content-Type", "application/json")], some (stringify o)⟩)
    ∧ (∀ s : String, s ≠ "" → xhrModel stringify method url (.str s) =
      ⟨method, url, [("Content-Type", "application/json")], some s⟩)
    ∧ xhrModel stringify method url .undef = ⟨method, url, [], none⟩
    ∧ xhrModel stringify method url .null = ⟨method, url, [], none⟩
    ∧ xhrModel stringify method url (.str "") = ⟨method, url, [], none⟩ := by
  intro α stringify method url
  refine ⟨fun o => rfl, fun s hs => ?_, rfl, rfl, rfl⟩
  simp [xhrModel, bodyTruthy, hs]

/-- Witness for C5: the amended claim applied at a concrete call. -/
theorem claim_C5_witness :
    xhrModel (fun n : Nat => toString n) "PUT" "/w" (.str "x") =
      ⟨"PUT", "/w", [("Content-Type", "application/json")], some "x"⟩ :=
  (claim_C5 Nat (fun n => toString n) "PUT" "/w").2.1 "x" (by decide)

/-- C9: `_xhr` dispatches on the truthiness of the body argument: every falsy
body (absent, `null`, or the empty string) results in no body sent and no
content-type header — the empty string is treated exactly like an absent
body — while every non-empty string body gets the JSON content-type header
even though the body is sent verbatim. -/
theorem claim_C9 :
    ∀ (α : Type) (stringify : α → String) (method url : String),
    (∀ b : ReqBody α, bodyTruthy b = false →
      xhrModel stringify method url b = ⟨method, url, [], none⟩)
    ∧ xhrModel stringify method url (.str "") = xhrModel stringify method url .undef
    ∧ (xhrModel stringify method url (.str "")).sentBody = none
    ∧ (xhrModel stringify method url (.str "")).headers = []
    ∧ (∀ s : String, s ≠ "" →
      (xhrModel stringify method url (.str s)).headers = [("Content-Type", "application/json")]
      ∧ (xhrModel stringify method url (.str s)).sentBody = some s) := by
  intro α stringify method url
  refine ⟨fun b hb => ?_, rfl, rfl, rfl, fun s hs => ?_⟩
  · simp [xhrModel, hb]
  · simp [xhrModel, bodyTruthy, hs]

/-- C3: for every valid starting node and non-empty selector, `_parent`
returns the first match among the upward chain of candidates — the node
itself included exactly when `includeSelf` is set — where the candidates
stop at the body boundary (`takeWhile (· ≠ body)`) or at the end of the
parent chain; `find?` returning `none` is the `undefined` "not found"
result, and returning the first satisfying element is the nearest matching
ancestor. -/
theorem claim_C3 :
    ∀ (d : Dom) (n : NodeRef) (sel : String) (includeSelf : Bool),
    sel ≠ "" → isRootNode d n = false →
    parentSearch d (some n) (some sel) includeSelf =
      .ok (((if includeSelf then n.self :: n.ancestors else n.ancestors).takeWhile
        (fun p => !(p == d.bodyId))).find? (fun p => d.elMatches p sel)) := by
  intro d n sel includeSelf hs hroot
  have hf : selectorFalsy (some sel) = false := by
    simp [selectorFalsy, hs]
  simp [parentSearch, hf, hroot, scanUp_eq_find]

/-- Witness for C3: a concrete document where the nearest matching ancestor
(id 7) is found before the body boundary (id 3). -/
theorem claim_C3_witness :
    parentSearch ⟨0, 1, 2, 3, fun p _ => p == 7⟩ (some ⟨10, [8, 7, 3, 2]⟩)
      (some ".x") false = .ok (some 7) := by
  have h := claim_C3 ⟨0, 1, 2, 3, fun p _ => p == 7⟩ ⟨10, [8, 7, 3, 2]⟩ ".x" false
    (by decide) (by decide)
  rw [h]
  rfl

/-- C4: `_parent` throws if and only if the node argument is missing, the
selector argument is falsy (missing or empty), or the starting node is one
of the four disallowed root-level nodes; in every other case it returns
normally, proceeding to the upward scan. -/
theorem claim_C4 :
    ∀ (d : Dom) (node : Option NodeRef) (selector : Option String) (includeSelf : Bool),
    ((∃ e, parentSearch d node selector includeSelf = .error e) ↔
      (node = none ∨ selectorFalsy selector = true
        ∨ ∃ n, node = some n ∧ isRootNode d n = true))
    ∧ (∀ n, node = some n → selectorFalsy selector = false → isRootNode d n = false →
      parentSearch d node selector includeSelf =
        .ok (scanUp d (selector.getD "")
          (if includeSelf then n.self :: n.ancestors else n.ancestors))) := by
  intro d node selector includeSelf
  constructor
  · cases node with
    | none => simp [parentSearch]
    | some n =>
      cases hf : selectorFalsy selector with
      | true => simp [parentSearch, hf]
      | false =>
        cases hr : isRootNode d n with
        | true => simp [parentSearch, hf, hr]
        | false => simp [parentSearch, hf, hr]
  · intro n hn hf hr
    subst hn
    simp [parentSearch, hf, hr]

/-- Witness for C4: a concrete throwing call (starting node is the body,
id 3) and a concrete non-throwing call. -/
theorem claim_C4_witness :
    (∃ e, parentSearch ⟨0, 1, 2, 3, fun _ _ => false⟩ (some ⟨3, []⟩) (some ".x") true
      = .error e)
    ∧ parentSearch ⟨0, 1, 2, 3, fun _ _ => false⟩ (some ⟨9, [3]⟩) (some ".x") true
      = .ok (scanUp ⟨0, 1, 2, 3, fun _ _ => false⟩ ".x" [9, 3]) := by
  constructor
  · exact (claim_C4 ⟨0, 1, 2, 3, fun _ _ => false⟩ (some ⟨3, []⟩) (some ".x") true).1.mpr
      (Or.inr (Or.inr ⟨⟨3, []⟩, rfl, by decide⟩))
  · exact (claim_C4 ⟨0, 1, 2, 3, fun _ _ => false⟩ (some ⟨9, [3]⟩) (some ".x") true).2
      ⟨9, [3]⟩ rfl (by decide) (by decide)

/-- C10: the upward scan of `_parent` never returns the body element — any
normal result differs from `some body` — because the loop terminates on
reaching the body without testing it against the selector, as the second
conjunct states for a chain beginning at the body: the scan returns "not
found" no matter what `matches` would say. -/
theorem claim_C10 :
    (∀ (d : Dom) (node : Option NodeRef) (selector : Option String) (includeSelf : Bool)
      (r : Option Nat),
      parentSearch d node selector includeSelf = .ok r → r ≠ some d.bodyId)
    ∧ (∀ (d : Dom) (sel : String) (rest : List Nat),
      scanUp d sel (d.bodyId :: rest) = none) := by
  constructor
  · intro d node selector includeSelf r h
    cases node with
    | none => simp [parentSearch] at h
    | some n =>
      cases hf : selectorFalsy selector with
      | true => simp [parentSearch, hf] at h
      | false =>
        cases hr : isRootNode d n with
        | true => simp [parentSearch, hf, hr] at h
        | false =>
          simp only [parentSearch, hf, hr, Bool.false_eq_true, if_false,
            Except.ok.injEq] at h
          cases r with
          | none => simp
          | some p =>
            intro hcontra
            cases hcontra
            exact scanUp_ne_body d (selector.getD "") _ d.bodyId h rfl
  · intro d sel rest
    simp [scanUp]

/-- Witness for C10: a concrete call whose whole chain is body-bounded and
whose selector matches everything, including the body; the result is still
"not found", not the body. -/
theorem claim_C10_witness :
    parentSearch ⟨0, 1, 2, 3, fun _ _ => true⟩ (some ⟨10, [3, 2]⟩) (some "*") false
      = .ok none
    ∧ (Option.none : Option Nat) ≠ some (3 : Nat)
    ∧ scanUp ⟨0, 1, 2, 3, fun _ _ => true⟩ "*" [3, 2] = none := by
  refine ⟨by rfl, ?_, claim_C10.2 ⟨0, 1, 2, 3, fun _ _ => true⟩ "*" [2]⟩
  exact claim_C10.1 ⟨0, 1, 2, 3, fun _ _ => true⟩ (some ⟨10, [3, 2]⟩) (some "*") false
    none (by rfl)

/-- C6: `_frag` with absent or empty input yields an empty fragment; with
string input it yields a fragment whose children are exactly the parsed
nodes of that string, in order (given that parsing the empty string yields
no nodes); and `_parseOne` returns the single top-level node directly when
the constructed fragment has exactly one child, otherwise the fragment
itself. -/
theorem claim_C6 :
    ∀ (parse : String → List DNode) (st : List DNode) (cloneEls : Bool),
    frag parse st .undef cloneEls = (st, [])
    ∧ frag parse st (.str "") cloneEls = (st, [])
    ∧ (parse "" = [] → ∀ s : String, frag parse st (.str s) cloneEls = (st, parse s))
    ∧ (∀ (content : FragContent) (c : DNode),
        (frag parse st content cloneEls).2 = [c] →
        parseOne parse st content cloneEls = ((frag parse st content cloneEls).1, .single c))
    ∧ (∀ content : FragContent,
        (frag parse st content cloneEls).2.length ≠ 1 →
        parseOne parse st content cloneEls =
          ((frag parse st content cloneEls).1, .fragment (frag parse st content cloneEls).2)) := by
  intro parse st cloneEls
  refine ⟨rfl, rfl, fun hp s => ?_, fun content c h => ?_, fun content h => ?_⟩
  · by_cases hs : s = ""
    · subst hs
      simp [frag, contentFalsy, hp]
    · simp [frag, contentFalsy, hs, moveChildren_eq]
  · simp only [parseOne]
    rw [h]
  · rcases hl : (frag parse st content cloneEls).2 with _ | ⟨c, cs⟩
    · simp [parseOne, hl]
    · cases cs with
      | nil => exact absurd (by rw [hl]; rfl) h
      | cons c2 cs2 => simp [parseOne, hl]

/-- Witness for C6: a concrete parse function and concrete contents for the
string, single-child and non-single-child cases. -/
theorem claim_C6_witness :
    frag (fun _ => []) [] (FragContent.str "x") false = ([], [])
    ∧ parseOne (fun _ => []) [] (FragContent.elemEl (DNode.text 0 "d")) false
      = ([], .single (DNode.text 0 "d"))
    ∧ parseOne (fun _ => []) [] FragContent.undef false = ([], .fragment []) := by
  refine ⟨?_, ?_, ?_⟩
  · exact (claim_C6 (fun _ => []) [] false).2.2.1 rfl "x"
  · exact (claim_C6 (fun _ => []) [] false).2.2.2.1
      (FragContent.elemEl (DNode.text 0 "d")) (DNode.text 0 "d") rfl
  · exact (claim_C6 (fun _ => []) [] false).2.2.2.2 FragContent.undef (by simp [frag])

/-- C7: `_frag` from a template yields a fragment holding a deep clone of the
template's content while the document (and so the template) is unchanged;
from a plain element with the clone flag it yields a fragment holding a deep
clone while the element stays in its prior location (document unchanged);
from a plain element without the flag, the element itself is appended to the
fragment and is removed from its prior location in the document. -/
theorem claim_C7 :
    ∀ (parse : String → List DNode) (st : List DNode) (cloneEls : Bool)
      (tid : Nat) (tcontent : List DNode) (n : DNode),
    (frag parse st (.templateEl tid tcontent) cloneEls = (st, cloneForest tcontent)
      ∧ cloneForest tcontent = tcontent)
    ∧ (frag parse st (.elemEl n) true = (st, [cloneNode n])
      ∧ cloneNode n = n)
    ∧ (frag parse st (.elemEl n) false = (detachForest n.nodeId st, [n])
      ∧ containsForest n.nodeId (detachForest n.nodeId st) = false) := by
  intro parse st cloneEls tid tcontent n
  exact ⟨⟨rfl, cloneForest_eq tcontent⟩, ⟨rfl, cloneNode_eq n⟩,
    ⟨rfl, containsForest_detachForest n.nodeId st⟩⟩

/-- C2: `_addDefaults` with a non-falsy target returns the target object
itself (same identity, same prototype chain), extended by exactly those own
enumerable keys of the defaults object that are absent from the target under
the `in` test — inherited keys count as present — each with the value taken
from the defaults object; and no key already present on the target
(including keys present only via inheritance) has its readable value
changed. -/
theorem claim_C2 :
    ∀ (V : Type) (obj d : JsObj V),
    (d.own.map Prod.fst).Nodup →
    addDefaults (some obj) d =
      ⟨obj.id, obj.own ++ List.filter (fun kv => !(keyIn kv.1 obj)) d.own, obj.protos⟩
    ∧ (∀ k : String, keyIn k obj = true →
        propGet k (addDefaults (some obj) d) = propGet k obj) := by
  intro V obj d hnd
  have hmain : addDefaults (some obj) d =
      ⟨obj.id, obj.own ++ List.filter (fun kv => !(keyIn kv.1 obj)) d.own, obj.protos⟩ := by
    have h := addDefaults_foldl obj d.own [] (by simpa using hnd)
    simpa [addDefaults] using h
  refine ⟨hmain, fun k hk => ?_⟩
  rw [hmain]
  rw [propGet_append_right_none k obj.id obj.own _ obj.protos
    (lookup_filter_keyIn_none obj k hk d.own)]

/-- Witness for C2: a target with own key `a` and inherited key `b`; the
defaults provide `a`, `b`, `c`, and only `c` is added, with the target's
identity and prototype chain intact and the inherited `b` still readable
from the prototype. -/
theorem claim_C2_witness :
    addDefaults (some ⟨5, [("a", (1 : Nat))], [[("b", 2)]]⟩)
        ⟨9, [("a", 10), ("b", 20), ("c", 30)], []⟩
      = ⟨5, [("a", 1), ("c", 30)], [[("b", 2)]]⟩
    ∧ propGet "b" (addDefaults (some ⟨5, [("a", (1 : Nat))], [[("b", 2)]]⟩)
        ⟨9, [("a", 10), ("b", 20), ("c", 30)], []⟩)
      = propGet "b" ⟨5, [("a", (1 : Nat))], [[("b", 2)]]⟩ := by
  have h := claim_C2 Nat ⟨5, [("a", 1)], [[("b", 2)]]⟩
    ⟨9, [("a", 10), ("b", 20), ("c", 30)], []⟩ (by decide)
  exact ⟨by rw [h.1]; decide, h.2 "b" (by decide)⟩

/-- C1: registration via `onDomReady` never invokes any callback
synchronously within the registration call (first conjunct: a `register`
step never extends the invocation trace); at the readiness transition the
flag flips, the listener is removed, the queue is discarded
(`_domReadyCallbacks` becomes `undefined`) and the queued-before-transition
callbacks are exactly the invocations performed, in registration order
(second conjunct); and over any run that starts with nothing pending and
ends drained, every callback is invoked exactly as many times as it was
registered — exactly once for distinct callbacks — whether registered
before or after the transition (third conjunct). -/
theorem claim_C1 :
    (∀ (s : ReadyState) (cb : Cb), (rstep s (.register cb)).invoked = s.invoked)
    ∧ (∀ pre : List RStep, (∀ e ∈ pre, e ≠ RStep.fire) →
        runSteps initLoading (pre ++ [RStep.fire]) = ⟨true, none, false, [], regs pre⟩)
    ∧ (∀ s : ReadyState, readyWF s → pendingCbs s = [] → s.invoked = [] →
        ∀ (steps : List RStep) (cb : Cb), drained (runSteps s steps) →
        (runSteps s steps).invoked.count cb = (regs steps).count cb) := by
  refine ⟨fun s cb => ?_, fun pre hne => ?_, fun s hwf hpend hinv steps cb hdr => ?_⟩
  · simp only [rstep]
    split <;> rfl
  · have h1 : runSteps initLoading (pre ++ [RStep.fire])
        = runSteps (runSteps initLoading pre) [RStep.fire] := by
      simp [runSteps, List.foldl_append]
    rw [h1, show (initLoading : ReadyState) = ⟨false, some [], true, [], []⟩ from rfl,
      runSteps_noFire pre [] hne]
    simp [runSteps, rstep]
  · have h := runSteps_count steps s cb hwf
    have hd : (pendingCbs (runSteps s steps)).count cb = 0 := by
      rw [hdr]
      rfl
    rw [hpend, hinv] at h
    simp only [List.count_nil] at h
    omega

/-- Witness for C1: the asynchrony of a concrete registration, a concrete
transition run invoking the two queued callbacks in order and discarding the
queue, and a concrete drained run (one callback queued before the
transition, one registered after) in which callback 0 is invoked exactly
once. -/
theorem claim_C1_witness :
    (rstep initLoading (RStep.register 7)).invoked = initLoading.invoked
    ∧ runSteps initLoading ([RStep.register 0, RStep.register 1] ++ [RStep.fire])
      = ⟨true, none, false, [], [0, 1]⟩
    ∧ (runSteps initLoading [RStep.register 0, RStep.fire, RStep.register 1,
        RStep.runTimeout]).invoked.count 0
      = (regs [RStep.register 0, RStep.fire, RStep.register 1,
          RStep.runTimeout]).count 0 := by
  refine ⟨claim_C1.1 initLoading 7, ?_, ?_⟩
  · have h := claim_C1.2.1 [RStep.register 0, RStep.register 1] (by decide)
    have hr : regs [RStep.register 0, RStep.register 1] = [0, 1] := by decide
    rw [hr] at h
    exact h
  · exact claim_C1.2.2 initLoading (fun _ => rfl) (by decide) rfl
      [RStep.register 0, RStep.fire, RStep.register 1, RStep.runTimeout] 0 (by decide)

/-- Witness for C7: adopting a text node out of a concrete one-element
document removes it from its parent, and the fragment holds the node
itself. -/
theorem claim_C7_witness :
    frag (fun _ => []) [DNode.elem 1 "div" [DNode.text 2 "hi"]]
        (FragContent.elemEl (DNode.text 2 "hi")) false
      = ([DNode.elem 1 "div" []], [DNode.text 2 "hi"])
    ∧ containsForest 2 [DNode.elem 1 "div" []] = false := by
  have h := (claim_C7 (fun _ => []) [DNode.elem 1 "div" [DNode.text 2 "hi"]] false 0 []
    (DNode.text 2 "hi")).2.2
  refine ⟨by rw [h.1]; simp [detachForest, detachNode, DNode.nodeId], ?_⟩
  have h2 := h.2
  simpa [detachForest, detachNode, DNode.nodeId] using h2

/-- Witness for C8: a concrete round trip from an initially unbound
global. -/
theorem claim_C8_witness :
    noConflict (loadLibrary (none : Option Nat) 42) = (⟨none, none, 42⟩, some 42) :=
  claim_C8.2 Nat none 42

/-- Witness for C9: concrete falsy and truthy bodies. -/
theorem claim_C9_witness :
    xhrModel (fun n : Nat => toString n) "GET" "/w" (.null) = ⟨"GET", "/w", [], none⟩
    ∧ (xhrModel (fun n : Nat => toString n) "GET" "/w" (.str "a")).sentBody = some "a" :=
  ⟨(claim_C9 Nat (fun n => toString n) "GET" "/w").1 .null (by decide),
   ((claim_C9 Nat (fun n => toString n) "GET" "/w").2.2.2.2 "a" (by decide)).2⟩

end OmegaJs
